import Mathlib

/-!
Verification development for the CsvCpp CSV parser (src/include/Parser.hpp).

The repository ships the class declaration in Parser.hpp; the method bodies
live in a translation unit that is not part of the sources at hand, so the
operational definitions below are modelled from the specification document
(record/field splitting, serialization, the Status analysis pass and the
numeral grammar), while everything the header itself fixes — the Status
field inventory and its default construction, the public delimiter members,
and the documented throwing behaviour of each operation — is translated
directly from the header.

Strings are embedded as `List Char` (the character sequence of a
`std::string`); tables and records keep their source names `CsvTable` and
`CsvRecord`.
-/

namespace CsvCpp

/-- One CSV field: the character sequence of a `std::string` field value. -/
abbrev Field := List Char

/-- One CSV row, `CsvRecord`: an ordered sequence of fields. -/
abbrev CsvRecord := List Field

/-- One CSV document, `CsvTable`: an ordered sequence of records. -/
abbrev CsvTable := List CsvRecord

/-- Modelled from the spec: greedy leftmost splitting of a character sequence
on exact substring occurrences of a delimiter, the `std::string::find` /
`substr` loop of the missing Parser.cpp.  The first argument is a fuel bound
(the recursion consumes at least one character per step, so `s.length` fuel
is always enough); the fuel only makes the recursion structural so that the
kernel can evaluate the function, it never changes the result. -/
def splitOnSubFuel (delim : List Char) : Nat → List Char → List (List Char)
  | _, [] => [[]]
  | 0, s => [s]
  | fuel + 1, c :: rest =>
    if delim.isPrefixOf (c :: rest) ∧ delim ≠ [] then
      [] :: splitOnSubFuel delim fuel ((c :: rest).drop delim.length)
    else
      (splitOnSubFuel delim fuel rest).modifyHead (fun f => c :: f)

/-- Modelled from the spec: split a character sequence on every exact
substring occurrence of `delim`, greedy and leftmost.  Splitting never
returns an empty list of parts; two adjacent delimiters produce an empty
part in between. -/
def splitOnSub (delim s : List Char) : List (List Char) :=
  splitOnSubFuel delim s.length s

/-- Record splitting, modelled from the spec: the input text is split on
occurrences of the record delimiter, and one trailing empty substring left
after a final record delimiter is discarded, so a file ending in the record
delimiter yields no phantom empty trailing record (and an empty file yields
zero records). -/
def splitRecords (recordDelimiter text : List Char) : List (List Char) :=
  let parts := splitOnSub recordDelimiter text
  if parts.getLast? = some [] then parts.dropLast else parts

/-- Parser configuration state, translated from the header: the two public
delimiter members `recordDelimiter` and `fieldDelimiter`, and the private
`filename` member set with SetFilename. -/
structure Parser where
  recordDelimiter : List Char
  fieldDelimiter : List Char
  filename : List Char
deriving DecidableEq

/-- Constructor `Parser(fieldDelimiter, recordDelimiter)`.  The header
documents every constructor with "@throws Does not throw", and the class has
no validating setter (both delimiters are plain public data members), so
construction is infallible; the `Except` result type only makes the absence
of a configuration error observable in the statements below.  The filename
member starts empty. -/
def Parser.construct (fieldDelimiter recordDelimiter : List Char) : Except String Parser :=
  Except.ok ⟨recordDelimiter, fieldDelimiter, []⟩

/-- Modelled from the spec: the defaulted constructor `Parser()` uses the
default dialect, field delimiter "," and record delimiter CRLF (the defaults
live in the missing Config.hpp; the header notes them in its comments). -/
def Parser.defaultDialect : Parser :=
  ⟨['\r', '\n'], [','], []⟩

/-- Member `SetFilename`, translated from the header: stores the default
target/source path; documented not to throw. -/
def Parser.SetFilename (p : Parser) (filename : List Char) : Parser :=
  ⟨p.recordDelimiter, p.fieldDelimiter, filename⟩

/-- Member `RecordStringToRecord`, modelled from the spec: one record
substring is split on every occurrence of the field delimiter to give the
ordered field list; an empty substring between two adjacent delimiters is a
valid (blank) field. -/
def Parser.RecordStringToRecord (p : Parser) (csvRowString : List Char) : CsvRecord :=
  splitOnSub p.fieldDelimiter csvRowString

/-- Modelled from the spec: decoding raw text to a table — record split with
the trailing-empty rule, then field split of every record substring. -/
def decodeTable (recordDelimiter fieldDelimiter : List Char) (text : List Char) : CsvTable :=
  (splitRecords recordDelimiter text).map (splitOnSub fieldDelimiter)

/-- Member `ReadEntireFile`, modelled from the spec: the file collaborator is
embedded as `Option (List Char)` — `none` when the named file cannot be
opened for reading, `some text` for its readable contents.  Per the header,
failure to open throws std::runtime_error (the `Except.error` case); any
readable content decodes without error. -/
def Parser.ReadEntireFile (p : Parser) (file : Option (List Char)) : Except String CsvTable :=
  match file with
  | none => Except.error "ReadEntireFile: could not open file"
  | some text => Except.ok (decodeTable p.recordDelimiter p.fieldDelimiter text)

/-- Modelled from the spec: serializing one record joins its fields with the
field delimiter, in order, with no leading or trailing field delimiter. -/
def encodeRecord (fieldDelimiter : List Char) (r : CsvRecord) : List Char :=
  List.intercalate fieldDelimiter r

/-- Modelled from the spec: serializing a table writes each serialized
record followed by one record delimiter, in record order — equivalently, the
records joined by the delimiter with exactly one trailing delimiter
appended. -/
def encodeTable (recordDelimiter fieldDelimiter : List Char) (t : CsvTable) : List Char :=
  (t.map (fun r => encodeRecord fieldDelimiter r ++ recordDelimiter)).flatten

/-- Member `CreateCsvFile`, modelled from the spec: the text written to the
destination file for a given table. -/
def Parser.CreateCsvFile (p : Parser) (csvTable : CsvTable) : List Char :=
  encodeTable p.recordDelimiter p.fieldDelimiter csvTable

/-- Status report class, translated from the header: six independently
optional facts about one table snapshot.  `numRecords` and `numFields` are
uint32_t counters in the header; the tables a claim touches are far below
2^32 records, so they are embedded as `Nat`. -/
structure Status where
  isWellformed : Option Bool
  allRecordsHaveEqualNumFields : Option Bool
  hasNoBlankFields : Option Bool
  numRecords : Option Nat
  numFields : Option Nat
  allFieldsNumeral : Option Bool
deriving DecidableEq

/-- Status default constructor, translated from the header: all optionals
are left un-initialised. -/
def Status.empty : Status :=
  ⟨none, none, none, none, none, none⟩

/-- Helper for the numeral grammar: strip at most one leading sign. -/
def stripSign (s : List Char) : List Char :=
  match s with
  | c :: rest => if c = '+' ∨ c = '-' then rest else s
  | [] => []

/-- Modelled from the spec: a plain integer numeral, one or more decimal
digits. -/
def isIntegerDigits (s : List Char) : Bool :=
  !s.isEmpty && s.all Char.isDigit

/-- Modelled from the spec: a decimal numeral, digits on at least one side
of a single dot. -/
def isDecimalDigits (s : List Char) : Bool :=
  match splitOnSub ['.'] s with
  | [a, b] => a.all Char.isDigit && b.all Char.isDigit && (!a.isEmpty || !b.isEmpty)
  | _ => false

/-- Hexadecimal digit test for the numeral grammar. -/
def isHexDigitChar (c : Char) : Bool :=
  c.isDigit || ('a' ≤ c && c ≤ 'f') || ('A' ≤ c && c ≤ 'F')

/-- Modelled from the spec: a hexadecimal literal, 0x or 0X followed by one
or more hexadecimal digits. -/
def isHexLiteral (s : List Char) : Bool :=
  match s with
  | '0' :: c :: rest => (c = 'x' || c = 'X') && !rest.isEmpty && rest.all isHexDigitChar
  | _ => false

/-- Modelled from the spec: an exponential numeral, an unsigned integer or
decimal mantissa, one e or E, and an optionally-signed integer exponent. -/
def isExponentialForm (s : List Char) : Bool :=
  match splitOnSub ['e'] (s.map (fun c => if c = 'E' then 'e' else c)) with
  | [m, ex] => (isIntegerDigits m || isDecimalDigits m) && isIntegerDigits (stripSign ex)
  | _ => false

/-- Modelled from the spec: the numeral grammar of the Status analysis — an
optional leading sign, then an integer, a decimal, a hexadecimal literal, or
an exponential form. -/
def isNumeral (s : List Char) : Bool :=
  isIntegerDigits (stripSign s) || isDecimalDigits (stripSign s) ||
    isHexLiteral (stripSign s) || isExponentialForm (stripSign s)

/-- Modelled from the spec: the field count every record is compared
against, the field count of the first record (0 for an empty table). -/
def numFieldsOfFirst (t : CsvTable) : Nat :=
  (t.headD []).length

/-- Modelled from the spec: true iff every record has the same field count
as the first record; vacuously true for an empty table. -/
def allRecordsEqualB (t : CsvTable) : Bool :=
  t.all (fun r => r.length == numFieldsOfFirst t)

/-- Modelled from the spec: true iff no field in any record is the empty
string; whitespace-only fields are not blank. -/
def hasNoBlankB (t : CsvTable) : Bool :=
  t.all (fun r => r.all (fun f => !f.isEmpty))

/-- Modelled from the spec: true iff every field of every record matches the
numeral grammar; vacuously true for an empty table. -/
def allNumeralB (t : CsvTable) : Bool :=
  t.all (fun r => r.all isNumeral)

/-- Member `GetStatus`, modelled from the spec: the analysis pass over one
table snapshot.  numRecords, allRecordsHaveEqualNumFields, hasNoBlankFields,
allFieldsNumeral and isWellformed are always computed; numFields is set only
when all records share a field count, and is otherwise left un-set. -/
def Parser.GetStatus (csvTable : CsvTable) : Status :=
  ⟨some (allRecordsEqualB csvTable && decide (1 ≤ csvTable.length)),
   some (allRecordsEqualB csvTable),
   some (hasNoBlankB csvTable),
   some csvTable.length,
   if allRecordsEqualB csvTable then some (numFieldsOfFirst csvTable) else none,
   some (allNumeralB csvTable)⟩

/-- State-passing form of `GetStatus`, translated from the header signature
`Status GetStatus(const CsvTable*)`: the table is taken through a pointer to
const and handed back unchanged next to the computed report. -/
def Parser.GetStatusM (csvTable : CsvTable) : Status × CsvTable :=
  (Parser.GetStatus csvTable, csvTable)

/-! Library of facts about the splitter and the serializer. -/

theorem splitOnSubFuel_fuel_irrel (delim : List Char) :
    ∀ f₁ f₂ s, s.length ≤ f₁ → s.length ≤ f₂ →
      splitOnSubFuel delim f₁ s = splitOnSubFuel delim f₂ s := by
  intro f₁
  induction f₁ with
  | zero =>
    intro f₂ s hs₁ _
    have : s = [] := List.length_eq_zero.mp (Nat.le_zero.mp hs₁)
    subst this
    cases f₂ <;> rfl
  | succ f ih =>
    intro f₂ s hs₁ hs₂
    cases s with
    | nil => cases f₂ <;> rfl
    | cons c rest =>
      cases f₂ with
      | zero => exact absurd hs₂ (by simp)
      | succ f₂' =>
        simp only [splitOnSubFuel]
        by_cases h : delim.isPrefixOf (c :: rest) ∧ delim ≠ []
        · rw [if_pos h, if_pos h]
          have hdlen : 1 ≤ delim.length := List.length_pos.mpr h.2
          have hdrop : ((c :: rest).drop delim.length).length ≤ rest.length := by
            simp only [List.length_drop, List.length_cons]
            omega
          have h₁ : ((c :: rest).drop delim.length).length ≤ f := by
            simp only [List.length_cons] at hs₁; omega
          have h₂ : ((c :: rest).drop delim.length).length ≤ f₂' := by
            simp only [List.length_cons] at hs₂; omega
          rw [ih _ _ h₁ h₂]
        · rw [if_neg h, if_neg h]
          have h₁ : rest.length ≤ f := by
            simp only [List.length_cons] at hs₁; omega
          have h₂ : rest.length ≤ f₂' := by
            simp only [List.length_cons] at hs₂; omega
          rw [ih _ _ h₁ h₂]

theorem splitOnSub_nil (delim : List Char) : splitOnSub delim [] = [[]] := rfl

theorem splitOnSub_cons_match (delim : List Char) (c : Char) (rest : List Char)
    (h1 : delim.isPrefixOf (c :: rest)) (h2 : delim ≠ []) :
    splitOnSub delim (c :: rest) =
      [] :: splitOnSub delim ((c :: rest).drop delim.length) := by
  show splitOnSubFuel delim (rest.length + 1) (c :: rest) = _
  simp only [splitOnSubFuel, if_pos (And.intro h1 h2)]
  have hdlen : 1 ≤ delim.length := List.length_pos.mpr h2
  have : ((c :: rest).drop delim.length).length ≤ rest.length := by
    simp only [List.length_drop, List.length_cons]; omega
  rw [splitOnSubFuel_fuel_irrel delim rest.length ((c :: rest).drop delim.length).length _ this le_rfl]
  rfl

theorem splitOnSub_cons_nomatch (delim : List Char) (c : Char) (rest : List Char)
    (h : ¬ (delim.isPrefixOf (c :: rest) ∧ delim ≠ [])) :
    splitOnSub delim (c :: rest) = (splitOnSub delim rest).modifyHead (fun f => c :: f) := by
  show splitOnSubFuel delim (rest.length + 1) (c :: rest) = _
  simp only [splitOnSubFuel, if_neg h]
  rfl

theorem splitOnSub_ne_nil (delim s : List Char) : splitOnSub delim s ≠ [] := by
  unfold splitOnSub
  generalize hf : s.length = f
  clear hf
  induction f generalizing s with
  | zero => cases s <;> simp [splitOnSubFuel]
  | succ f ih =>
    cases s with
    | nil => simp [splitOnSubFuel]
    | cons c rest =>
      simp only [splitOnSubFuel]
      by_cases h : delim.isPrefixOf (c :: rest) ∧ delim ≠ []
      · rw [if_pos h]; simp
      · rw [if_neg h]
        intro hcon
        exact ih rest (by simpa using congrArg List.length hcon)

theorem modifyHead_append_of_ne_nil (f : List Char → List Char)
    (l₁ l₂ : List (List Char)) (h : l₁ ≠ []) :
    (l₁ ++ l₂).modifyHead f = l₁.modifyHead f ++ l₂ := by
  cases l₁ with
  | nil => exact absurd rfl h
  | cons a l => rfl

theorem splitOnSub_single_cons_eq (c : Char) (rest : List Char) :
    splitOnSub [c] (c :: rest) = [] :: splitOnSub [c] rest := by
  have := splitOnSub_cons_match [c] c rest (by simp [List.isPrefixOf]) (by simp)
  simpa using this

theorem splitOnSub_single_cons_ne (c x : Char) (rest : List Char) (h : x ≠ c) :
    splitOnSub [c] (x :: rest) = (splitOnSub [c] rest).modifyHead (fun f => x :: f) := by
  apply splitOnSub_cons_nomatch
  intro hcon
  have := hcon.1
  simp [List.isPrefixOf] at this
  exact h this.symm

theorem splitOnSub_single_of_not_mem (c : Char) (r : List Char) (h : c ∉ r) :
    splitOnSub [c] r = [r] := by
  induction r with
  | nil => rfl
  | cons x rest ih =>
    have hx : x ≠ c := fun hxc => h (by simp [hxc])
    rw [splitOnSub_single_cons_ne c x rest hx, ih (fun hm => h (by simp [hm]))]
    rfl

theorem splitOnSub_single_append_cons (c : Char) (r u : List Char) (h : c ∉ r) :
    splitOnSub [c] (r ++ c :: u) = r :: splitOnSub [c] u := by
  induction r with
  | nil => simpa using splitOnSub_single_cons_eq c u
  | cons x rest ih =>
    have hx : x ≠ c := fun hxc => h (by simp [hxc])
    have hrest : c ∉ rest := fun hm => h (by simp [hm])
    rw [List.cons_append, splitOnSub_single_cons_ne c x (rest ++ c :: u) hx, ih hrest]
    rfl

theorem splitOnSub_single_append_delim (c : Char) (t : List Char) :
    splitOnSub [c] (t ++ [c]) = splitOnSub [c] t ++ [[]] := by
  induction t with
  | nil => simpa using splitOnSub_single_cons_eq c []
  | cons x rest ih =>
    by_cases hx : x = c
    · subst hx
      rw [List.cons_append, splitOnSub_single_cons_eq x (rest ++ [x]), ih,
        splitOnSub_single_cons_eq x rest]
      rfl
    · rw [List.cons_append, splitOnSub_single_cons_ne c x (rest ++ [c]) hx, ih,
        splitOnSub_single_cons_ne c x rest hx,
        modifyHead_append_of_ne_nil _ _ _ (splitOnSub_ne_nil [c] rest)]

theorem intercalate_singleton_part (sep a : List Char) :
    List.intercalate sep [a] = a := by
  simp [List.intercalate]

theorem intercalate_cons_cons (sep a b : List Char) (l : List (List Char)) :
    List.intercalate sep (a :: b :: l) = a ++ sep ++ List.intercalate sep (b :: l) := by
  simp [List.intercalate, List.intersperse]

theorem not_mem_intercalate_single (fc rc : Char) (r : CsvRecord)
    (hne : rc ≠ fc) (hf : ∀ f ∈ r, rc ∉ f) :
    rc ∉ List.intercalate [fc] r := by
  induction r with
  | nil => simp [List.intercalate]
  | cons a l ih =>
    cases l with
    | nil =>
      rw [intercalate_singleton_part]
      exact hf a (by simp)
    | cons b l' =>
      rw [intercalate_cons_cons]
      intro hmem
      rcases List.mem_append.mp hmem with h1 | h2
      · rcases List.mem_append.mp h1 with ha | hfc
        · exact hf a (by simp) ha
        · exact hne (by simpa using hfc)
      · exact ih (fun f hf' => hf f (by simp [hf'])) h2

theorem splitOnSub_flatten_append_delim (rc : Char) (rs : List (List Char))
    (h : ∀ x ∈ rs, rc ∉ x) :
    splitOnSub [rc] ((rs.map (fun x => x ++ [rc])).flatten) = rs ++ [[]] := by
  induction rs with
  | nil => simp [splitOnSub_nil]
  | cons x rs ih =>
    have hx : rc ∉ x := h x (by simp)
    rw [List.map_cons, List.flatten_cons, List.append_assoc, List.singleton_append,
      splitOnSub_single_append_cons rc x _ hx, ih (fun y hy => h y (by simp [hy]))]
    rfl

theorem splitOnSub_intercalate_single (fc : Char) (r : CsvRecord)
    (hr : r ≠ []) (hf : ∀ f ∈ r, fc ∉ f) :
    splitOnSub [fc] (List.intercalate [fc] r) = r := by
  induction r with
  | nil => exact absurd rfl hr
  | cons a l ih =>
    cases l with
    | nil =>
      rw [intercalate_singleton_part, splitOnSub_single_of_not_mem fc a (hf a (by simp))]
    | cons b l' =>
      rw [intercalate_cons_cons, List.append_assoc, List.singleton_append,
        splitOnSub_single_append_cons fc a _ (hf a (by simp)),
        ih (by simp) (fun f hf' => hf f (by simp [hf']))]

theorem flatten_map_append_eq_intercalate (rd : List Char) (rs : List (List Char))
    (h : rs ≠ []) :
    (rs.map (fun x => x ++ rd)).flatten = List.intercalate rd rs ++ rd := by
  induction rs with
  | nil => exact absurd rfl h
  | cons x l ih =>
    cases l with
    | nil => simp [intercalate_singleton_part]
    | cons y l' =>
      rw [List.map_cons, List.flatten_cons, ih (by simp), intercalate_cons_cons]
      simp [List.append_assoc]

theorem splitRecords_append_delim_single (rc : Char) (t : List Char) :
    splitRecords [rc] (t ++ [rc]) = splitOnSub [rc] t := by
  simp only [splitRecords, splitOnSub_single_append_delim, List.getLast?_concat,
    List.dropLast_concat, if_pos]

/-! Claim theorems. -/

/-- C1 (counterexample): with field delimiter "aa" and record delimiter LF —
both non-empty and distinct — the one-record table [["a","b"]] violates the
round-trip law even though no field contains either delimiter as a
substring: the encoded text is "aaab\n", whose leading "aa" (the junction of
the field "a" and the field delimiter) is consumed as a delimiter
occurrence, decoding to [["","ab"]]. -/
theorem roundtrip_counterexample :
    (['a', 'a'] : List Char) ≠ [] ∧
    (['\n'] : List Char) ≠ [] ∧
    (['a', 'a'] : List Char) ≠ ['\n'] ∧
    1 ≤ ([[['a'], ['b']]] : CsvTable).length ∧
    ¬ (['a', 'a'] : List Char) <:+: (['a'] : List Char) ∧
    ¬ (['a', 'a'] : List Char) <:+: (['b'] : List Char) ∧
    ¬ (['\n'] : List Char) <:+: (['a'] : List Char) ∧
    ¬ (['\n'] : List Char) <:+: (['b'] : List Char) ∧
    decodeTable ['\n'] ['a', 'a'] (encodeTable ['\n'] ['a', 'a'] [[['a'], ['b']]]) ≠
      [[['a'], ['b']]] := by
  decide

/-- C1 (amended): for single-character field and record delimiters that are
distinct, decoding the encoding of any table with at least one record, in
which every record has at least one field and no field contains either
delimiter character, yields the table back unchanged: same record count,
same ordered field lists, same record order. -/
theorem roundtrip_single_char_delims (fc rc : Char) (t : CsvTable)
    (hne : fc ≠ rc) (hnonempty : t ≠ []) (hrec : ∀ r ∈ t, r ≠ [])
    (hfield : ∀ r ∈ t, ∀ f ∈ r, fc ∉ f ∧ rc ∉ f) :
    decodeTable [rc] [fc] (encodeTable [rc] [fc] t) = t := by
  unfold decodeTable encodeTable
  have hmem : ∀ x ∈ t.map (encodeRecord [fc]), rc ∉ x := by
    intro x hx
    rcases List.mem_map.mp hx with ⟨r, hr, rfl⟩
    exact not_mem_intercalate_single fc rc r hne.symm (fun f hf => (hfield r hr f hf).2)
  have h1 : (t.map (fun r => encodeRecord [fc] r ++ [rc])).flatten =
      ((t.map (encodeRecord [fc])).map (fun x => x ++ [rc])).flatten := by
    rw [List.map_map]; rfl
  rw [h1]
  have h2 : splitRecords [rc] (((t.map (encodeRecord [fc])).map (fun x => x ++ [rc])).flatten) =
      t.map (encodeRecord [fc]) := by
    simp only [splitRecords, splitOnSub_flatten_append_delim rc _ hmem,
      List.getLast?_concat, List.dropLast_concat, if_pos]
  rw [h2, List.map_map]
  have h3 : ∀ r ∈ t, splitOnSub [fc] (encodeRecord [fc] r) = r := fun r hr =>
    splitOnSub_intercalate_single fc r (hrec r hr) (fun f hf => (hfield r hr f hf).1)
  exact (List.map_congr_left h3).trans (List.map_id t)

/-- C1 (witness): the amended round trip at the concrete table
[["a","b"],["c"]] with the delimiters "," and LF. -/
theorem roundtrip_single_char_delims_witness :
    decodeTable ['\n'] [','] (encodeTable ['\n'] [','] [[['a'], ['b']], [['c']]]) =
      [[['a'], ['b']], [['c']]] :=
  roundtrip_single_char_delims ',' '\n' [[['a'], ['b']], [['c']]]
    (by decide) (by decide) (by decide) (by decide)

/-- C2: the isWellformed fact is always computed, it is true exactly when
allRecordsHaveEqualNumFields is true and the computed record count is at
least one, and the empty table reports isWellformed = false. -/
theorem getStatus_isWellformed_spec :
    (∀ t : CsvTable,
        ((Parser.GetStatus t).isWellformed).isSome = true ∧
        ((Parser.GetStatus t).isWellformed = some true ↔
          ((Parser.GetStatus t).allRecordsHaveEqualNumFields = some true ∧
            1 ≤ ((Parser.GetStatus t).numRecords).getD 0))) ∧
    (Parser.GetStatus []).isWellformed = some false := by
  refine ⟨fun t => ⟨rfl, ?_⟩, by decide⟩
  simp [Parser.GetStatus]

/-- C2 (witness): the one-record table [["a"]] is well-formed by the
characterization. -/
theorem getStatus_isWellformed_spec_witness :
    (Parser.GetStatus [[['a']]]).isWellformed = some true :=
  ((getStatus_isWellformed_spec.1 [[['a']]]).2).mpr ⟨by decide, by decide⟩

/-- C3: the allFieldsNumeral fact is always computed and is true exactly
when every field of every record matches the numeral grammar; "-3.14",
"0xFF", "2.5e-10" and "42" are numerals, while "3,", "abc" and the empty
string are not, and the empty table reports allFieldsNumeral = true. -/
theorem getStatus_allFieldsNumeral_spec :
    (∀ t : CsvTable,
        ((Parser.GetStatus t).allFieldsNumeral).isSome = true ∧
        ((Parser.GetStatus t).allFieldsNumeral = some true ↔
          ∀ r ∈ t, ∀ f ∈ r, isNumeral f = true)) ∧
    isNumeral ("-3.14".data) = true ∧
    isNumeral ("0xFF".data) = true ∧
    isNumeral ("2.5e-10".data) = true ∧
    isNumeral ("42".data) = true ∧
    isNumeral ("3,".data) = false ∧
    isNumeral ("abc".data) = false ∧
    isNumeral ("".data) = false ∧
    (Parser.GetStatus []).allFieldsNumeral = some true := by
  refine ⟨fun t => ⟨rfl, ?_⟩, by decide, by decide, by decide, by decide, by decide,
    by decide, by decide, by decide⟩
  simp [Parser.GetStatus, allNumeralB, List.all_eq_true]

/-- C3 (witness): the table [["42"]] reports all fields numeral by the
characterization. -/
theorem getStatus_allFieldsNumeral_spec_witness :
    (Parser.GetStatus [[['4', '2']]]).allFieldsNumeral = some true :=
  ((getStatus_allFieldsNumeral_spec.1 [[['4', '2']]]).2).mpr (by decide)

/-- C4 (counterexample): construction is never rejected — a Parser built
with two equal delimiters, with an empty field delimiter, or with an empty
record delimiter succeeds, so no configuration error is raised at
construction time (the header documents all constructors as "Does not
throw", and the delimiters are public members with no validating setter). -/
theorem parser_construct_counterexample :
    (Parser.construct [','] [',']).isOk = true ∧
    (Parser.construct [] ['\r', '\n']).isOk = true ∧
    (Parser.construct [','] []).isOk = true := by
  decide

/-- C4 (amended): construction accepts every delimiter configuration —
empty or colliding delimiters included — returning a Parser carrying
exactly the given delimiters; no validation happens at construction or
setter time. -/
theorem parser_construct_never_rejects :
    ∀ fieldDelimiter recordDelimiter : List Char,
      Parser.construct fieldDelimiter recordDelimiter =
        Except.ok ⟨recordDelimiter, fieldDelimiter, []⟩ ∧
      (Parser.construct fieldDelimiter recordDelimiter).isOk = true :=
  fun _ _ => ⟨rfl, rfl⟩

/-- C4 (witness): constructing with two empty delimiters succeeds. -/
theorem parser_construct_never_rejects_witness :
    (Parser.construct [] []).isOk = true :=
  (parser_construct_never_rejects [] []).2

/-- C5: ReadEntireFile errors exactly when the file cannot be opened (the
Option collaborator is none), and never on content — ragged field counts,
blank fields and non-numeral fields parse successfully and are surfaced
only through the Status report. -/
theorem readEntireFile_spec :
    (∀ (p : Parser) (file : Option (List Char)),
        ((p.ReadEntireFile file).isOk = true ↔ file.isSome = true)) ∧
    Parser.defaultDialect.ReadEntireFile none =
      Except.error "ReadEntireFile: could not open file" ∧
    Parser.defaultDialect.ReadEntireFile (some ("a,b\r\nc\r\n".data)) =
      Except.ok [[['a'], ['b']], [['c']]] ∧
    (Parser.GetStatus [[['a'], ['b']], [['c']]]).allRecordsHaveEqualNumFields = some false ∧
    Parser.defaultDialect.ReadEntireFile (some ("a,,c\r\n".data)) =
      Except.ok [[['a'], [], ['c']]] ∧
    (Parser.GetStatus [[['a'], [], ['c']]]).hasNoBlankFields = some false ∧
    Parser.defaultDialect.ReadEntireFile (some ("abc\r\n".data)) =
      Except.ok [[['a', 'b', 'c']]] ∧
    (Parser.GetStatus [[['a', 'b', 'c']]]).allFieldsNumeral = some false := by
  refine ⟨fun p file => ?_, rfl, rfl, by decide, rfl, by decide, rfl, by decide⟩
  cases file <;> simp [Parser.ReadEntireFile, Except.isOk, Except.toBool]

/-- C5 (witness): reading an openable empty file succeeds. -/
theorem readEntireFile_spec_witness :
    (Parser.defaultDialect.ReadEntireFile (some [])).isOk = true :=
  (readEntireFile_spec.1 Parser.defaultDialect (some [])).mpr (by decide)

/-- C6: the numFields fact is computed exactly when all records share a
field count, in which case it equals the field count of every record; the
ragged table [["a","b"],["c"]] leaves it un-set, which is distinct from the
present-and-zero report of the table whose single record has no fields. -/
theorem getStatus_numFields_spec :
    (∀ t : CsvTable,
        (((Parser.GetStatus t).numFields).isSome = true ↔
          (Parser.GetStatus t).allRecordsHaveEqualNumFields = some true) ∧
        ∀ r ∈ t, ∀ n : Nat, (Parser.GetStatus t).numFields = some n → r.length = n) ∧
    (Parser.GetStatus [[['a'], ['b']], [['c']]]).numFields = none ∧
    (Parser.GetStatus [[]]).numFields = some 0 := by
  refine ⟨fun t => ⟨?_, ?_⟩, by decide, by decide⟩
  · by_cases h : allRecordsEqualB t = true <;> simp [Parser.GetStatus, h]
  · intro r hr n hn
    by_cases h : allRecordsEqualB t = true
    · simp only [Parser.GetStatus, h, if_pos, Option.some.injEq] at hn
      have hall := List.all_eq_true.mp h r hr
      have : r.length = numFieldsOfFirst t := by simpa using hall
      omega
    · simp [Parser.GetStatus, h] at hn

/-- C6 (witness): the two-field table [["a","b"]] has numFields computed,
and its record length matches the reported shared count 2. -/
theorem getStatus_numFields_spec_witness :
    ([['a'], ['b']] : CsvRecord).length = 2 ∧
    ((Parser.GetStatus [[['a'], ['b']]]).numFields).isSome = true :=
  ⟨(getStatus_numFields_spec.1 [[['a'], ['b']]]).2 [['a'], ['b']] (by decide) 2 (by decide),
    ((getStatus_numFields_spec.1 [[['a'], ['b']]]).1).mpr (by decide)⟩

/-- C7: the hasNoBlankFields fact is always computed and is true exactly
when no field of any record is the empty string; decoding "a,,c\r\n" gives
a blank middle field and hasNoBlankFields = false, while decoding
"a, ,c\r\n" gives a one-space middle field and hasNoBlankFields = true. -/
theorem getStatus_hasNoBlankFields_spec :
    (∀ t : CsvTable,
        ((Parser.GetStatus t).hasNoBlankFields).isSome = true ∧
        ((Parser.GetStatus t).hasNoBlankFields = some true ↔
          ∀ r ∈ t, ∀ f ∈ r, f ≠ [])) ∧
    decodeTable ['\r', '\n'] [','] ("a,,c\r\n".data) = [[['a'], [], ['c']]] ∧
    (Parser.GetStatus (decodeTable ['\r', '\n'] [','] ("a,,c\r\n".data))).hasNoBlankFields =
      some false ∧
    decodeTable ['\r', '\n'] [','] ("a, ,c\r\n".data) = [[['a'], [' '], ['c']]] ∧
    (Parser.GetStatus (decodeTable ['\r', '\n'] [','] ("a, ,c\r\n".data))).hasNoBlankFields =
      some true := by
  refine ⟨fun t => ⟨rfl, ?_⟩, by decide, by decide, by decide, by decide⟩
  simp [Parser.GetStatus, hasNoBlankB, List.all_eq_true]

/-- C7 (witness): the whitespace-only field [" "] is not blank by the
characterization. -/
theorem getStatus_hasNoBlankFields_spec_witness :
    (Parser.GetStatus [[[' ']]]).hasNoBlankFields = some true :=
  ((getStatus_hasNoBlankFields_spec.1 [[[' ']]]).2).mpr (by decide)

/-- C8 (counterexample): with the record delimiter "aa" the append/discard
pair fails to invert — the record string "a" contains no "aa", yet
appending the delimiter and record-splitting yields ["","a"] instead of
["a"], and decode after encode turns the table [["a"]] into [[""],["a"]]
(the appended delimiter merges with the preceding text). -/
theorem trailing_rule_counterexample :
    ¬ (['a', 'a'] : List Char) <:+: (['a'] : List Char) ∧
    splitRecords ['a', 'a'] (['a'] ++ ['a', 'a']) ≠ splitOnSub ['a', 'a'] ['a'] ∧
    decodeTable ['a', 'a'] [','] (encodeTable ['a', 'a'] [','] [[['a']]]) ≠ [[['a']]] := by
  decide

/-- C8 (amended): encoding appends exactly one trailing record delimiter —
for a non-empty table the encoded text is the serialized records joined by
the record delimiter followed by a single trailing delimiter — and for a
single-character record delimiter the discard rule is its exact inverse:
record-splitting any text with one delimiter appended equals plain
splitting of the text. -/
theorem encode_decode_trailing_rules (rd : List Char) (rc : Char)
    (fieldDelimiter text : List Char) (t : CsvTable) (h : t ≠ []) :
    encodeTable rd fieldDelimiter t =
      List.intercalate rd (t.map (encodeRecord fieldDelimiter)) ++ rd ∧
    splitRecords [rc] (text ++ [rc]) = splitOnSub [rc] text := by
  constructor
  · unfold encodeTable
    have h1 : (t.map (fun r => encodeRecord fieldDelimiter r ++ rd)).flatten =
        ((t.map (encodeRecord fieldDelimiter)).map (fun x => x ++ rd)).flatten := by
      rw [List.map_map]; rfl
    rw [h1, flatten_map_append_eq_intercalate rd _ (by simpa using h)]
  · exact splitRecords_append_delim_single rc text

/-- C8 (witness): the amended trailing rules at the concrete table
[["x"],["y"]] with CRLF, and at the text "a\nb" with LF. -/
theorem encode_decode_trailing_rules_witness :
    encodeTable ['\r', '\n'] [','] [[['x']], [['y']]] =
      List.intercalate ['\r', '\n'] ([[['x']], [['y']]].map (encodeRecord [','])) ++
        ['\r', '\n'] ∧
    splitRecords ['\n'] (("a\nb".data) ++ ['\n']) = splitOnSub ['\n'] ("a\nb".data) :=
  encode_decode_trailing_rules ['\r', '\n'] '\n' [','] ("a\nb".data) [[['x']], [['y']]]
    (by decide)

/-- C9: GetStatus is a pure function of the table contents at call time —
in the state-passing embedding of the const-pointer signature it hands the
table back unchanged, and a second call on the returned table produces the
identical report. -/
theorem getStatusM_pure :
    ∀ t : CsvTable,
      (Parser.GetStatusM t).2 = t ∧
      (Parser.GetStatusM ((Parser.GetStatusM t).2)).1 = (Parser.GetStatusM t).1 :=
  fun _ => ⟨rfl, rfl⟩

/-- C9 (witness): the purity facts at the concrete table [["a"]]. -/
theorem getStatusM_pure_witness :
    (Parser.GetStatusM [[['a']]]).2 = [[['a']]] ∧
    (Parser.GetStatusM ((Parser.GetStatusM [[['a']]]).2)).1 =
      (Parser.GetStatusM [[['a']]]).1 :=
  getStatusM_pure [[['a']]]

/-- C10: for every table the report computes isWellformed,
allRecordsHaveEqualNumFields, hasNoBlankFields, numRecords and
allFieldsNumeral; numFields is the only fact that may be left un-set (it is
absent for the ragged table [["a","b"],["c"]]), and a default-constructed
Status has every fact un-set. -/
theorem status_fields_presence :
    (∀ t : CsvTable,
        ((Parser.GetStatus t).isWellformed).isSome = true ∧
        ((Parser.GetStatus t).allRecordsHaveEqualNumFields).isSome = true ∧
        ((Parser.GetStatus t).hasNoBlankFields).isSome = true ∧
        ((Parser.GetStatus t).numRecords).isSome = true ∧
        ((Parser.GetStatus t).allFieldsNumeral).isSome = true) ∧
    ((Parser.GetStatus [[['a'], ['b']], [['c']]]).numFields).isSome = false ∧
    Status.empty.isWellformed = none ∧
    Status.empty.allRecordsHaveEqualNumFields = none ∧
    Status.empty.hasNoBlankFields = none ∧
    Status.empty.numRecords = none ∧
    Status.empty.numFields = none ∧
    Status.empty.allFieldsNumeral = none := by
  exact ⟨fun t => ⟨rfl, rfl, rfl, rfl, rfl⟩, by decide, rfl, rfl, rfl, rfl, rfl, rfl⟩

/-- C10 (witness): the always-computed facts at the empty table. -/
theorem status_fields_presence_witness :
    ((Parser.GetStatus []).numRecords).isSome = true :=
  (status_fields_presence.1 []).2.2.2.1

end CsvCpp
